import Mathlib

/-!
Shallow embedding of the Minesweeper rules engine (`components.py`) and
verification of the specified properties.

Modelling conventions:

* Python `int` coordinates are `Int`; grid dimensions and the mine budget are
  the `Nat` values the difficulty presets supply to the constructor.
* Python attribute errors matter here: `Board.__init__` assigns
  `self._mines_placed = False`, while `Board.reveal` reads `self.mines_placed`
  — an attribute that is only ever created (with value `True`) inside
  `place_mines`'s mine loop.  We therefore model `mines_placed` as
  `Option Unit`: `none` means "attribute absent" (reading it raises
  `AttributeError`), `some ()` means "attribute present, value `True`"
  (the only value the source ever assigns to it).
* Operations that can raise return `Board × Option PyError`: the board
  component is the state at return/raise time (Python mutates in place, so an
  exception leaves all mutations made before the raise).
* `random.sample(pool, count)` in `place_mines` is modelled by passing the
  sampled list of mine positions explicitly; `ValidSample` captures exactly
  what `random.sample` guarantees about that list.
* The self-recursive flood fill in `reveal` is modelled with explicit fuel
  (`revealFuel`); the termination theorem proves the result is independent of
  the fuel once the fuel exceeds the number of unrevealed cells, which is the
  statement that the recursion terminates.
-/

set_option maxRecDepth 100000

namespace Minesweeper

/-- The Python exceptions that can arise in the engine's code paths.
`recursionError` is the fuel-exhaustion marker of the embedding. -/
inductive PyError where
  | attributeError
  | indexError
  | recursionError
deriving DecidableEq

/-- `CellState` from `components.py`: mutable state of a single cell. -/
structure CellState where
  is_mine : Bool
  is_revealed : Bool
  is_flagged : Bool
  adjacent : Int
deriving DecidableEq

/-- Default cell state: `CellState()` with all defaults. -/
def CellState.init : CellState :=
  { is_mine := false, is_revealed := false, is_flagged := false, adjacent := 0 }

/-- `Cell` from `components.py`: a cell positioned by `(col, row)`. -/
structure Cell where
  col : Int
  row : Int
  state : CellState
deriving DecidableEq

/-- `Board` from `components.py`.  `_mines_placed` is the attribute the
constructor initialises; `mines_placed` is the distinct attribute `reveal`
reads and `place_mines` writes (see the module comment). -/
structure Board where
  cols : Nat
  rows : Nat
  num_mines : Nat
  cells : List Cell
  _mines_placed : Bool
  mines_placed : Option Unit
  revealed_count : Int
  game_over : Bool
  win : Bool
deriving DecidableEq

/-- `Board.__init__(cols, rows, mines)`:
`self.cells = [Cell(c, r) for r in range(rows) for c in range(cols)]`,
`self._mines_placed = False`, counters and flags zeroed.  The attribute
`mines_placed` does not exist yet (`none`). -/
def Board.init (cols rows mines : Nat) : Board :=
  { cols := cols
    rows := rows
    num_mines := mines
    cells := (List.range rows).flatMap fun r =>
      (List.range cols).map fun c => ⟨(c : Int), (r : Int), CellState.init⟩
    _mines_placed := false
    mines_placed := none
    revealed_count := 0
    game_over := false
    win := false }

/-- `Board.index(col, row) = row * self.cols + col`.  The engine only calls it
on in-bounds coordinates, where the value is a valid non-negative index;
`toNat` is the identity there. -/
def Board.index (b : Board) (col row : Int) : Nat :=
  (row * (b.cols : Int) + col).toNat

/-- `Board.is_inbounds(col, row) = 0 <= col < self.cols and 0 <= row < self.rows`. -/
def Board.is_inbounds (b : Board) (col row : Int) : Bool :=
  decide (0 ≤ col) && decide (col < (b.cols : Int)) &&
    (decide (0 ≤ row) && decide (row < (b.rows : Int)))

/-- The eight direction offsets of `Board.neighbors`, in source order. -/
def deltas : List (Int × Int) :=
  [(-1, -1), (0, -1), (1, -1), (-1, 0), (1, 0), (-1, 1), (0, 1), (1, 1)]

/-- `Board.neighbors(col, row)`: the eight offset coordinates, filtered to
in-bounds ones, preserving the source's compass order. -/
def Board.neighbors (b : Board) (col row : Int) : List (Int × Int) :=
  (deltas.map fun d => (col + d.1, row + d.2)).filter fun p =>
    b.is_inbounds p.1 p.2

/-- `all_positions = [(c, r) for r in range(self.rows) for c in range(self.cols)]`
inside `place_mines`. -/
def Board.all_positions (b : Board) : List (Int × Int) :=
  (List.range b.rows).flatMap fun r =>
    (List.range b.cols).map fun c => ((c : Int), (r : Int))

/-- `forbidden = {(safe_col, safe_row)} | set(self.neighbors(...))` in
`place_mines`, as a list. -/
def Board.forbidden (b : Board) (safe_col safe_row : Int) : List (Int × Int) :=
  (safe_col, safe_row) :: b.neighbors safe_col safe_row

/-- `pool = [p for p in all_positions if p not in forbidden]` in `place_mines`. -/
def Board.pool (b : Board) (safe_col safe_row : Int) : List (Int × Int) :=
  b.all_positions.filter fun p => decide (p ∉ b.forbidden safe_col safe_row)

/-- What `random.sample(pool, count)` with
`count = min(self.num_mines, len(pool))` guarantees about its result:
distinct members of the pool, `count` of them. -/
def Board.ValidSample (b : Board) (safe_col safe_row : Int)
    (mine_locs : List (Int × Int)) : Prop :=
  mine_locs.Nodup ∧ (∀ p ∈ mine_locs, p ∈ b.pool safe_col safe_row) ∧
    mine_locs.length = min b.num_mines (b.pool safe_col safe_row).length

/-- In-place mutation `self.cells[idx].state = f(...)`, as a functional list
update.  The source only performs it at valid indices (out-of-range would be
a Python `IndexError`; constructed boards never reach it). -/
def Board.updateAt (b : Board) (idx : Nat) (f : CellState → CellState) : Board :=
  match b.cells.get? idx with
  | none => b
  | some cell => { b with cells := b.cells.set idx { cell with state := f cell.state } }

/-- One iteration of the mine-placement loop in `place_mines`:
`self.cells[idx].state.is_mine = True; self.mines_placed = True`.
Note the `mines_placed` attribute is created inside this loop, so it is only
created when at least one mine is placed. -/
def Board.placeOne (b : Board) (p : Int × Int) : Board :=
  let b1 := b.updateAt (b.index p.1 p.2) fun s => { s with is_mine := true }
  { b1 with mines_placed := some () }

/-- Whether the cell stored at the index of position `p` is a mine
(`false` when the index is out of range). -/
def Board.mineAt (b : Board) (p : Int × Int) : Bool :=
  match b.cells.get? (b.index p.1 p.2) with
  | none => false
  | some cell => cell.state.is_mine

/-- The inner loop of the adjacency pass: the number of in-bounds neighbors
of `(col, row)` whose cell `is_mine`. -/
def Board.adjCount (b : Board) (col row : Int) : Nat :=
  (b.neighbors col row).countP fun p => b.mineAt p

/-- The adjacency pass's update of the single cell at flat index `i`
(coordinates `(i % cols, i / cols)` in the row-major layout):
non-mine cells get `adjacent` recomputed, mine cells are untouched. -/
def Board.adjTransform (b : Board) (i : Nat) (cell : Cell) : Cell :=
  if cell.state.is_mine then cell
  else { cell with state :=
    { cell.state with
      adjacent := ((b.adjCount ((i % b.cols : Nat) : Int) ((i / b.cols : Nat) : Int)) : Int) } }

/-- The adjacency loop of `place_mines`
(`for r in range(rows): for c in range(cols): ...`), which visits the flat
indices `0, 1, 2, ...` in order and rewrites each cell once, reading only the
`is_mine` fields (which the loop never changes).  It is therefore an
index-aware map over the cell list. -/
def Board.adjPass (b : Board) : Nat → List Cell → List Cell
  | _, [] => []
  | i, cell :: rest => b.adjTransform i cell :: b.adjPass (i + 1) rest

/-- Step 4 of `place_mines`: recompute `adjacent` for every non-mine cell. -/
def Board.computeAdjacency (b : Board) : Board :=
  { b with cells := b.adjPass 0 b.cells }

/-- `Board.place_mines(safe_col, safe_row)`, with the result of
`random.sample` passed explicitly as `mine_locs`. -/
def Board.place_mines (b : Board) (safe_col safe_row : Int)
    (mine_locs : List (Int × Int)) : Board :=
  (mine_locs.foldl Board.placeOne b).computeAdjacency

/-- `Board._reveal_all_mines()`: set `is_revealed` on every mine cell. -/
def Board._reveal_all_mines (b : Board) : Board :=
  { b with cells := b.cells.map fun cell =>
      if cell.state.is_mine then
        { cell with state := { cell.state with is_revealed := true } }
      else cell }

/-- `Board._check_win()`: if `revealed_count == cols*rows - num_mines` and not
`game_over`, set `win = True` and force-reveal every unrevealed non-mine cell. -/
def Board._check_win (b : Board) : Board :=
  if b.revealed_count = ((b.cols * b.rows : Nat) : Int) - (b.num_mines : Int)
      ∧ b.game_over = false then
    { b with
      win := true
      cells := b.cells.map fun cell =>
        if cell.state.is_revealed = false ∧ cell.state.is_mine = false then
          { cell with state := { cell.state with is_revealed := true } }
        else cell }
  else b

/-- An engine call's outcome: the board state at return (or raise) time,
paired with the exception raised, if any. -/
abbrev PyR := Board × Option PyError

/-- One iteration of the flood-fill loop
`for nc, nr in self.neighbors(col, row): self.reveal(nc, nr)`:
once an exception has been raised the loop is aborted (the remaining
iterations leave the accumulated outcome untouched). -/
def floodStep (recur : Board → Int → Int → PyR) (acc : PyR) (p : Int × Int) : PyR :=
  match acc.2 with
  | some _ => acc
  | none => recur acc.1 p.1 p.2

/-- Step 4 of `reveal`: `cell.state.is_revealed = True` at the cell's index. -/
def Board.markRevealed (b : Board) (idx : Nat) : Board :=
  b.updateAt idx fun s => { s with is_revealed := true }

/-- Step 7 of `reveal`: if the flood loop finished without an exception, call
`self._check_win()`; otherwise the exception propagates out of `reveal`
before the win check can run. -/
def finishReveal : PyR → PyR
  | (b, some e) => (b, some e)
  | (b, none) => (b._check_win, none)

/-- The body of `Board.reveal(col, row)`, with the self-recursive call
abstracted as `recur`.  Follows the source step by step:
out-of-bounds guard; read of the (possibly absent) `mines_placed` attribute —
when present its value is `True` (the only value ever assigned), so
`place_mines` is never invoked from here; already-revealed/flagged guard;
mark revealed; mine case (set `game_over`, reveal all mines, return without a
win check); zero-adjacency flood fill over the neighbors; win check. -/
def revealBody (recur : Board → Int → Int → PyR) (b : Board) (col row : Int) : PyR :=
  if b.is_inbounds col row then
    match b.mines_placed with
    | none => (b, some PyError.attributeError)
    | some _ =>
      match b.cells.get? (b.index col row) with
      | none => (b, some PyError.indexError)
      | some cell =>
        if cell.state.is_revealed || cell.state.is_flagged then (b, none)
        else if cell.state.is_mine then
          (Board._reveal_all_mines
            { b.markRevealed (b.index col row) with game_over := true }, none)
        else
          finishReveal
            (if cell.state.adjacent = 0 then
              (b.neighbors col row).foldl (floodStep recur)
                (b.markRevealed (b.index col row), none)
            else (b.markRevealed (b.index col row), none))
  else (b, none)

/-- Fuel-indexed `Board.reveal`: `fuel` bounds the recursion depth of the
flood fill; exhaustion yields the `recursionError` marker.  The termination
theorem shows any `fuel` larger than the number of unrevealed cells gives the
same outcome, so the marker never arises from the engine itself. -/
def Board.revealFuel : Nat → Board → Int → Int → PyR
  | 0, b, _, _ => (b, some PyError.recursionError)
  | fuel + 1, b, col, row => revealBody (fun bb c r => Board.revealFuel fuel bb c r) b col row

/-- Number of cells not yet revealed (the flood-fill termination measure). -/
def Board.unrevealedCount (b : Board) : Nat :=
  b.cells.countP fun cell => !cell.state.is_revealed

/-- `Board.reveal(col, row)`: the fuel `unrevealedCount + 1` is always
sufficient (termination theorem). -/
def Board.reveal (b : Board) (col row : Int) : PyR :=
  Board.revealFuel (b.unrevealedCount + 1) b col row

/-- `Board.toggle_flag(col, row)`: out-of-bounds and already-revealed guards,
then flip `is_flagged`. -/
def Board.toggle_flag (b : Board) (col row : Int) : PyR :=
  if b.is_inbounds col row then
    match b.cells.get? (b.index col row) with
    | none => (b, some PyError.indexError)
    | some cell =>
      if cell.state.is_revealed then (b, none)
      else (b.updateAt (b.index col row) fun s => { s with is_flagged := !s.is_flagged }, none)
  else (b, none)

/-- `Board.flagged_count()`: its body is only `pass`, so the call returns
Python `None` (modelled as `none`) whatever the board state. -/
def Board.flagged_count (_b : Board) : Option Int := none

/-- Number of cells with `is_revealed == True` (what `revealed_count` is
documented to equal). -/
def Board.countRevealed (b : Board) : Nat :=
  b.cells.countP fun cell => cell.state.is_revealed

/-- Number of cells with `is_flagged == True` (what `flagged_count` is
documented to return). -/
def Board.countFlagged (b : Board) : Nat :=
  b.cells.countP fun cell => cell.state.is_flagged

/-- Well-formedness every constructed board has: the flat cell list covers
the whole grid. -/
def Board.WF (b : Board) : Prop :=
  b.cells.length = b.rows * b.cols

/-- The cell stored at the index of `(col, row)`, when that index is valid. -/
def Board.cellAt (b : Board) (col row : Int) : Option Cell :=
  b.cells.get? (b.index col row)

/-! ### Generic list lemmas -/

theorem countP_set_add {α : Type} (p : α → Bool) :
    ∀ (l : List α) (i : Nat) (a a' : α), l.get? i = some a →
      (l.set i a').countP p + (if p a then 1 else 0) =
        l.countP p + (if p a' then 1 else 0) := by
  intro l
  induction l with
  | nil => intro i a a' h; simp at h
  | cons x xs ih =>
    intro i a a' h
    cases i with
    | zero =>
      simp only [List.get?] at h
      cases h
      simp only [List.set, List.countP_cons]
      omega
    | succ j =>
      simp only [List.get?] at h
      simp only [List.set, List.countP_cons]
      have := ih j a a' h
      omega

theorem countP_map_le {α : Type} (p : α → Bool) (f : α → α)
    (hf : ∀ a, p (f a) = true → p a = true) :
    ∀ l : List α, (l.map f).countP p ≤ l.countP p := by
  intro l
  rw [List.countP_map]
  apply List.countP_mono_left
  intro x _ hx
  exact hf x hx

theorem mem_of_get?_eq_some {α : Type} {l : List α} {i : Nat} {a : α}
    (h : l.get? i = some a) : a ∈ l := by
  induction l generalizing i with
  | nil => simp at h
  | cons x xs ih =>
    cases i with
    | zero => simp only [List.get?] at h; cases h; exact List.mem_cons_self _ _
    | succ j => exact List.mem_cons_of_mem _ (ih h)

/-! ### Index arithmetic -/

theorem is_inbounds_iff {b : Board} {col row : Int} :
    b.is_inbounds col row = true ↔
      0 ≤ col ∧ col < (b.cols : Int) ∧ 0 ≤ row ∧ row < (b.rows : Int) := by
  simp [Board.is_inbounds, and_assoc]

theorem index_eq_of_inbounds {b : Board} {col row : Int}
    (h : b.is_inbounds col row = true) :
    b.index col row = row.toNat * b.cols + col.toNat := by
  obtain ⟨h1, h2, h3, h4⟩ := is_inbounds_iff.mp h
  have h5 : row * (b.cols : Int) = ((row.toNat * b.cols : Nat) : Int) := by
    push_cast
    rw [Int.toNat_of_nonneg h3]
  unfold Board.index
  rw [h5]
  omega

theorem index_lt_of_inbounds {b : Board} {col row : Int}
    (hwf : b.WF) (h : b.is_inbounds col row = true) :
    b.index col row < b.cells.length := by
  obtain ⟨h1, h2, h3, h4⟩ := is_inbounds_iff.mp h
  rw [index_eq_of_inbounds h, hwf]
  have hc : col.toNat < b.cols := by omega
  have hr : row.toNat < b.rows := by omega
  calc row.toNat * b.cols + col.toNat < row.toNat * b.cols + b.cols := by omega
    _ = (row.toNat + 1) * b.cols := by ring
    _ ≤ b.rows * b.cols := Nat.mul_le_mul_right _ (by omega)

theorem flat_index_inj {x y u v C : Nat} (hu : u < C) (hv : v < C)
    (he : x * C + u = y * C + v) : x = y ∧ u = v := by
  rcases Nat.lt_trichotomy x y with h | h | h
  · exfalso
    have hle : (x + 1) * C ≤ y * C := Nat.mul_le_mul_right _ (by omega)
    have hx1 : (x + 1) * C = x * C + C := by ring
    omega
  · subst h
    omega
  · exfalso
    have hle : (y + 1) * C ≤ x * C := Nat.mul_le_mul_right _ (by omega)
    have hy1 : (y + 1) * C = y * C + C := by ring
    omega

theorem index_inj {b : Board} {c₁ r₁ c₂ r₂ : Int}
    (h₁ : b.is_inbounds c₁ r₁ = true) (h₂ : b.is_inbounds c₂ r₂ = true)
    (hne : (c₁, r₁) ≠ (c₂, r₂)) :
    b.index c₁ r₁ ≠ b.index c₂ r₂ := by
  obtain ⟨a1, a2, a3, a4⟩ := is_inbounds_iff.mp h₁
  obtain ⟨b1, b2, b3, b4⟩ := is_inbounds_iff.mp h₂
  rw [index_eq_of_inbounds h₁, index_eq_of_inbounds h₂]
  intro he
  have hc₁ : c₁.toNat < b.cols := by omega
  have hc₂ : c₂.toNat < b.cols := by omega
  obtain ⟨hrow, hcol⟩ := flat_index_inj hc₁ hc₂ he
  apply hne
  have hc : c₁ = c₂ := by omega
  have hr : r₁ = r₂ := by omega
  rw [hc, hr]

theorem inbounds_of_mem_all_positions {b : Board} {p : Int × Int}
    (h : p ∈ b.all_positions) : b.is_inbounds p.1 p.2 = true := by
  obtain ⟨pc, pr⟩ := p
  simp only [Board.all_positions, List.mem_flatMap, List.mem_map,
    List.mem_range, Prod.mk.injEq] at h
  obtain ⟨r, hr, c, hc, hpc, hpr⟩ := h
  subst hpc
  subst hpr
  simp only [List.mem_map, List.mem_range, List.bind_eq_flatMap,
    List.mem_flatMap, List.mem_pure] at hc
  obtain ⟨c', hc', rfl⟩ := hc
  simp only [is_inbounds_iff]
  omega

theorem inbounds_of_mem_neighbors {b : Board} {c r : Int} {p : Int × Int}
    (h : p ∈ b.neighbors c r) : b.is_inbounds p.1 p.2 = true := by
  simp only [Board.neighbors, List.mem_filter] at h
  exact h.2

/-! ### Field-preservation lemmas for the primitive updates -/

theorem updateAt_cols (b : Board) (i : Nat) (f : CellState → CellState) :
    (b.updateAt i f).cols = b.cols := by
  unfold Board.updateAt; split <;> rfl

theorem updateAt_rows (b : Board) (i : Nat) (f : CellState → CellState) :
    (b.updateAt i f).rows = b.rows := by
  unfold Board.updateAt; split <;> rfl

theorem updateAt_num_mines (b : Board) (i : Nat) (f : CellState → CellState) :
    (b.updateAt i f).num_mines = b.num_mines := by
  unfold Board.updateAt; split <;> rfl

theorem updateAt_mines_placed (b : Board) (i : Nat) (f : CellState → CellState) :
    (b.updateAt i f).mines_placed = b.mines_placed := by
  unfold Board.updateAt; split <;> rfl

theorem updateAt_game_over (b : Board) (i : Nat) (f : CellState → CellState) :
    (b.updateAt i f).game_over = b.game_over := by
  unfold Board.updateAt; split <;> rfl

theorem updateAt_win (b : Board) (i : Nat) (f : CellState → CellState) :
    (b.updateAt i f).win = b.win := by
  unfold Board.updateAt; split <;> rfl

theorem updateAt_revealed_count (b : Board) (i : Nat) (f : CellState → CellState) :
    (b.updateAt i f).revealed_count = b.revealed_count := by
  unfold Board.updateAt; split <;> rfl

theorem updateAt_length (b : Board) (i : Nat) (f : CellState → CellState) :
    (b.updateAt i f).cells.length = b.cells.length := by
  unfold Board.updateAt; split
  · rfl
  · simp [List.length_set]

theorem updateAt_get?_ne (b : Board) (i j : Nat) (f : CellState → CellState)
    (h : i ≠ j) : (b.updateAt i f).cells.get? j = b.cells.get? j := by
  unfold Board.updateAt; split
  · rfl
  · exact List.get?_set_ne _ _ h

theorem index_congr {b₁ b₂ : Board} (h : b₁.cols = b₂.cols) (col row : Int) :
    b₁.index col row = b₂.index col row := by
  unfold Board.index; rw [h]

/-! ### `place_mines`: the mine-placement fold -/

theorem placeOne_cols (b : Board) (q : Int × Int) : (b.placeOne q).cols = b.cols := by
  simp only [Board.placeOne]
  exact updateAt_cols _ _ _

theorem placeOne_rows (b : Board) (q : Int × Int) : (b.placeOne q).rows = b.rows := by
  simp only [Board.placeOne]
  exact updateAt_rows _ _ _

theorem placeOne_num_mines (b : Board) (q : Int × Int) :
    (b.placeOne q).num_mines = b.num_mines := by
  simp only [Board.placeOne]
  exact updateAt_num_mines _ _ _

theorem placeOne_length (b : Board) (q : Int × Int) :
    (b.placeOne q).cells.length = b.cells.length := by
  simp only [Board.placeOne]
  exact updateAt_length _ _ _

theorem placeOne_get?_ne (b : Board) (q : Int × Int) (i : Nat)
    (h : b.index q.1 q.2 ≠ i) :
    (b.placeOne q).cells.get? i = b.cells.get? i := by
  simp only [Board.placeOne]
  exact updateAt_get?_ne _ _ _ _ h

theorem foldl_placeOne_cols :
    ∀ (locs : List (Int × Int)) (b : Board),
      (locs.foldl Board.placeOne b).cols = b.cols := by
  intro locs
  induction locs with
  | nil => intro b; rfl
  | cons q qs ih =>
    intro b
    simp only [List.foldl]
    rw [ih (b.placeOne q), placeOne_cols]

theorem foldl_placeOne_rows :
    ∀ (locs : List (Int × Int)) (b : Board),
      (locs.foldl Board.placeOne b).rows = b.rows := by
  intro locs
  induction locs with
  | nil => intro b; rfl
  | cons q qs ih =>
    intro b
    simp only [List.foldl]
    rw [ih (b.placeOne q), placeOne_rows]

theorem foldl_placeOne_num_mines :
    ∀ (locs : List (Int × Int)) (b : Board),
      (locs.foldl Board.placeOne b).num_mines = b.num_mines := by
  intro locs
  induction locs with
  | nil => intro b; rfl
  | cons q qs ih =>
    intro b
    simp only [List.foldl]
    rw [ih (b.placeOne q), placeOne_num_mines]

theorem foldl_placeOne_length :
    ∀ (locs : List (Int × Int)) (b : Board),
      (locs.foldl Board.placeOne b).cells.length = b.cells.length := by
  intro locs
  induction locs with
  | nil => intro b; rfl
  | cons q qs ih =>
    intro b
    simp only [List.foldl]
    rw [ih (b.placeOne q), placeOne_length]

theorem foldl_placeOne_get? (i : Nat) :
    ∀ (locs : List (Int × Int)) (b : Board),
      (∀ q ∈ locs, b.index q.1 q.2 ≠ i) →
      (locs.foldl Board.placeOne b).cells.get? i = b.cells.get? i := by
  intro locs
  induction locs with
  | nil => intro b _; rfl
  | cons q qs ih =>
    intro b h
    simp only [List.foldl]
    rw [ih (b.placeOne q), placeOne_get?_ne]
    · exact h q (List.mem_cons_self _ _)
    · intro q' hq'
      rw [index_congr (placeOne_cols b q)]
      exact h q' (List.mem_cons_of_mem _ hq')

theorem mem_pool {b : Board} {sc sr : Int} {p : Int × Int}
    (h : p ∈ b.pool sc sr) :
    p ∈ b.all_positions ∧ p ∉ b.forbidden sc sr := by
  rw [Board.pool, List.mem_filter] at h
  exact ⟨h.1, by simpa using h.2⟩

/-! ### `place_mines`: the adjacency pass -/

theorem adjTransform_is_mine (b : Board) (i : Nat) (cell : Cell) :
    (b.adjTransform i cell).state.is_mine = cell.state.is_mine := by
  unfold Board.adjTransform; split <;> rfl

theorem adjPass_length (b : Board) :
    ∀ (l : List Cell) (i : Nat), (b.adjPass i l).length = l.length := by
  intro l
  induction l with
  | nil => intro i; rfl
  | cons x xs ih => intro i; simp [Board.adjPass, ih]

theorem adjPass_get? (b : Board) :
    ∀ (l : List Cell) (i j : Nat),
      (b.adjPass i l).get? j = (l.get? j).map (b.adjTransform (i + j)) := by
  intro l
  induction l with
  | nil => intro i j; simp [Board.adjPass]
  | cons x xs ih =>
    intro i j
    cases j with
    | zero => simp [Board.adjPass, List.get?]
    | succ k =>
      simp only [Board.adjPass, List.get?]
      rw [ih (i + 1) k]
      have hik : i + 1 + k = i + (k + 1) := by omega
      rw [hik]

theorem computeAdjacency_cols (b : Board) : b.computeAdjacency.cols = b.cols := rfl

theorem computeAdjacency_length (b : Board) :
    b.computeAdjacency.cells.length = b.cells.length := by
  simp only [Board.computeAdjacency]
  exact adjPass_length b b.cells 0

theorem neighbors_computeAdjacency (b : Board) (col row : Int) :
    b.computeAdjacency.neighbors col row = b.neighbors col row := rfl

theorem mineAt_computeAdjacency (b : Board) (p : Int × Int) :
    b.computeAdjacency.mineAt p = b.mineAt p := by
  unfold Board.mineAt
  have hidx : b.computeAdjacency.index p.1 p.2 = b.index p.1 p.2 := rfl
  rw [hidx]
  have hc : b.computeAdjacency.cells = b.adjPass 0 b.cells := rfl
  rw [hc, adjPass_get? b b.cells 0 (b.index p.1 p.2)]
  cases h : b.cells.get? (b.index p.1 p.2) with
  | none => rfl
  | some cell => simp [adjTransform_is_mine]

theorem adjCount_computeAdjacency (b : Board) (col row : Int) :
    b.computeAdjacency.adjCount col row = b.adjCount col row := by
  unfold Board.adjCount
  rw [neighbors_computeAdjacency]
  have hp : (fun p => b.computeAdjacency.mineAt p) = fun p => b.mineAt p :=
    funext (mineAt_computeAdjacency b)
  rw [hp]

theorem mineAt_place_mines_untouched (b : Board) (sc sr : Int)
    (locs : List (Int × Int)) (p : Int × Int)
    (h : ∀ q ∈ locs, b.index q.1 q.2 ≠ b.index p.1 p.2) :
    (b.place_mines sc sr locs).mineAt p = b.mineAt p := by
  unfold Board.place_mines
  rw [mineAt_computeAdjacency]
  unfold Board.mineAt
  rw [index_congr (foldl_placeOne_cols locs b) p.1 p.2,
    foldl_placeOne_get? _ locs b h]

theorem adjCount_le_eight (b : Board) (col row : Int) : b.adjCount col row ≤ 8 := by
  unfold Board.adjCount
  calc (b.neighbors col row).countP (fun p => b.mineAt p)
      ≤ (b.neighbors col row).length := List.countP_le_length _
    _ ≤ 8 := by
      unfold Board.neighbors
      calc (List.filter _ (deltas.map _)).length
          ≤ (deltas.map fun d => (col + d.1, row + d.2)).length :=
            List.length_filter_le _ _
        _ = 8 := by simp [deltas]

/-- C4: for every fresh board (no mines yet placed — the state in which the
engine invokes `place_mines`), in-bounds first click `(safe_col, safe_row)`,
and any list of mine positions `random.sample` can return, after
`place_mines` the clicked cell and all of its in-bounds neighbors are
mine-free. -/
theorem C4_first_click_safety (b : Board) (safe_col safe_row : Int)
    (mine_locs : List (Int × Int))
    (hfresh : ∀ cell ∈ b.cells, cell.state.is_mine = false)
    (hin : b.is_inbounds safe_col safe_row = true)
    (hsample : b.ValidSample safe_col safe_row mine_locs) :
    (b.place_mines safe_col safe_row mine_locs).mineAt (safe_col, safe_row) = false ∧
      ∀ p ∈ b.neighbors safe_col safe_row,
        (b.place_mines safe_col safe_row mine_locs).mineAt p = false := by
  obtain ⟨-, hmem, -⟩ := hsample
  have hforb : ∀ p : Int × Int, b.is_inbounds p.1 p.2 = true →
      p ∈ b.forbidden safe_col safe_row →
      (b.place_mines safe_col safe_row mine_locs).mineAt p = false := by
    intro p hpin hpf
    rw [mineAt_place_mines_untouched]
    · unfold Board.mineAt
      cases hg : b.cells.get? (b.index p.1 p.2) with
      | none => rfl
      | some cell => exact hfresh cell (mem_of_get?_eq_some hg)
    · intro q hq
      obtain ⟨hqall, hqnf⟩ := mem_pool (hmem q hq)
      have hqin := inbounds_of_mem_all_positions hqall
      apply index_inj hqin hpin
      intro he
      apply hqnf
      have hqp : q = p := by
        obtain ⟨q1, q2⟩ := q
        obtain ⟨p1, p2⟩ := p
        simpa using he
      rw [hqp]
      exact hpf
  refine ⟨hforb (safe_col, safe_row) hin (List.mem_cons_self _ _), ?_⟩
  intro p hp
  exact hforb p (inbounds_of_mem_neighbors hp) (List.mem_cons_of_mem _ hp)

/-- Witness for C4 at a concrete input: a fresh 3×3 board with one mine,
first click at the corner `(0, 0)`, sample `[(2, 2)]`. -/
theorem C4_first_click_safety_witness :
    ((∀ cell ∈ (Board.init 3 3 1).cells, cell.state.is_mine = false) ∧
      (Board.init 3 3 1).is_inbounds 0 0 = true ∧
      (Board.init 3 3 1).ValidSample 0 0 [(2, 2)]) ∧
    (((Board.init 3 3 1).place_mines 0 0 [(2, 2)]).mineAt (0, 0) = false ∧
      ∀ p ∈ (Board.init 3 3 1).neighbors 0 0,
        ((Board.init 3 3 1).place_mines 0 0 [(2, 2)]).mineAt p = false) :=
  ⟨⟨by decide, by decide, by unfold Board.ValidSample; decide⟩,
    C4_first_click_safety (Board.init 3 3 1) 0 0 [(2, 2)]
      (by decide) (by decide) (by unfold Board.ValidSample; decide)⟩

/-- C5: immediately after `place_mines`, every in-bounds non-mine cell's
`adjacent` field equals the number of its in-bounds neighbors that are mines,
a value between 0 and 8.  (The adjacency pass recomputes `adjacent` for all
non-mine cells from the final mine layout, so no freshness or sample-validity
hypothesis is needed.) -/
theorem C5_adjacent_counts (b : Board) (safe_col safe_row : Int)
    (mine_locs : List (Int × Int)) (hwf : b.WF) (col row : Int)
    (hin : (b.place_mines safe_col safe_row mine_locs).is_inbounds col row = true)
    (hnm : (b.place_mines safe_col safe_row mine_locs).mineAt (col, row) = false) :
    ((b.place_mines safe_col safe_row mine_locs).cellAt col row).map
        (fun cell => cell.state.adjacent) =
      some (((b.place_mines safe_col safe_row mine_locs).adjCount col row : Nat) : Int) ∧
    (b.place_mines safe_col safe_row mine_locs).adjCount col row ≤ 8 := by
  have hpm : b.place_mines safe_col safe_row mine_locs
      = (mine_locs.foldl Board.placeOne b).computeAdjacency := rfl
  set b1 := mine_locs.foldl Board.placeOne b with hb1
  have hin1 : b1.is_inbounds col row = true := hin
  have hwf1 : b1.WF := by
    unfold Board.WF
    rw [foldl_placeOne_length, foldl_placeOne_rows, foldl_placeOne_cols]
    exact hwf
  obtain ⟨h1, h2, h3, h4⟩ := is_inbounds_iff.mp hin1
  have hC : 0 < b1.cols := by omega
  have hidx := index_eq_of_inbounds hin1
  have hlt : b1.index col row < b1.cells.length := index_lt_of_inbounds hwf1 hin1
  obtain ⟨cell, hcell⟩ : ∃ cell, b1.cells.get? (b1.index col row) = some cell :=
    ⟨b1.cells.get ⟨b1.index col row, hlt⟩, List.get?_eq_get hlt⟩
  have hca : (b.place_mines safe_col safe_row mine_locs).cellAt col row
      = some (b1.adjTransform (b1.index col row) cell) := by
    rw [hpm]
    unfold Board.cellAt
    have hidx2 : b1.computeAdjacency.index col row = b1.index col row := rfl
    have hcells : b1.computeAdjacency.cells = b1.adjPass 0 b1.cells := rfl
    rw [hidx2, hcells, adjPass_get? b1 b1.cells 0 (b1.index col row), hcell]
    simp
  have hcm : cell.state.is_mine = false := by
    rw [hpm, mineAt_computeAdjacency] at hnm
    have hnm2 : (match b1.cells.get? (b1.index col row) with
        | none => false
        | some cell => cell.state.is_mine) = false := hnm
    rw [hcell] at hnm2
    exact hnm2
  have hmod : b1.index col row % b1.cols = col.toNat := by
    rw [hidx]
    have hcomm : row.toNat * b1.cols + col.toNat
        = b1.cols * row.toNat + col.toNat := by ring
    rw [hcomm, Nat.mul_add_mod]
    exact Nat.mod_eq_of_lt (by omega)
  have hdiv : b1.index col row / b1.cols = row.toNat := by
    rw [hidx]
    have hcomm : row.toNat * b1.cols + col.toNat
        = b1.cols * row.toNat + col.toNat := by ring
    rw [hcomm, Nat.mul_add_div hC]
    have hz : col.toNat / b1.cols = 0 := Nat.div_eq_of_lt (by omega)
    omega
  have htr : b1.adjTransform (b1.index col row) cell =
      { cell with state :=
        { cell.state with adjacent := ((b1.adjCount col row : Nat) : Int) } } := by
    unfold Board.adjTransform
    rw [hmod, hdiv, Int.toNat_of_nonneg h1, Int.toNat_of_nonneg h3]
    simp [hcm]
  have hac : (b.place_mines safe_col safe_row mine_locs).adjCount col row
      = b1.adjCount col row := by
    rw [hpm, adjCount_computeAdjacency]
  constructor
  · rw [hca, htr, hac]
    rfl
  · exact adjCount_le_eight _ _ _

/-! ### `reveal`: projection and counting lemmas -/

theorem markRevealed_game_over (b : Board) (i : Nat) :
    (b.markRevealed i).game_over = b.game_over := updateAt_game_over _ _ _

theorem markRevealed_win (b : Board) (i : Nat) :
    (b.markRevealed i).win = b.win := updateAt_win _ _ _

theorem markRevealed_mines_placed (b : Board) (i : Nat) :
    (b.markRevealed i).mines_placed = b.mines_placed := updateAt_mines_placed _ _ _

theorem _check_win_game_over (b : Board) :
    b._check_win.game_over = b.game_over := by
  unfold Board._check_win; split <;> rfl

theorem _check_win_win_mono (b : Board) (h : b.win = true) :
    b._check_win.win = true := by
  unfold Board._check_win; split
  · rfl
  · exact h

theorem _check_win_mines_placed (b : Board) :
    b._check_win.mines_placed = b.mines_placed := by
  unfold Board._check_win; split <;> rfl

theorem _reveal_all_mines_game_over (b : Board) :
    b._reveal_all_mines.game_over = b.game_over := rfl

theorem _reveal_all_mines_win (b : Board) :
    b._reveal_all_mines.win = b.win := rfl

theorem unrev_ram_le (b : Board) :
    b._reveal_all_mines.unrevealedCount ≤ b.unrevealedCount := by
  unfold Board._reveal_all_mines Board.unrevealedCount
  apply countP_map_le
  intro a ha
  by_cases hm : a.state.is_mine = true
  · simp [hm] at ha
  · simp only [Bool.not_eq_true] at hm
    simpa [hm] using ha

theorem unrev_check_win_le (b : Board) :
    b._check_win.unrevealedCount ≤ b.unrevealedCount := by
  unfold Board._check_win
  split
  · unfold Board.unrevealedCount
    apply countP_map_le
    intro a ha
    by_cases hc : a.state.is_revealed = false ∧ a.state.is_mine = false
    · simp [hc] at ha
    · simpa [hc] using ha
  · exact le_refl _

theorem unrev_markRevealed_le (b : Board) (i : Nat) :
    (b.markRevealed i).unrevealedCount ≤ b.unrevealedCount := by
  unfold Board.markRevealed Board.updateAt
  split
  · exact le_refl _
  · rename_i cell heq
    unfold Board.unrevealedCount
    dsimp only
    have h := countP_set_add (fun c => !c.state.is_revealed) b.cells i cell
      { cell with state := { cell.state with is_revealed := true } } heq
    by_cases hr : cell.state.is_revealed = true <;> simp [hr] at h <;> omega

theorem unrev_markRevealed_eq (b : Board) (i : Nat) (cell : Cell)
    (heq : b.cells.get? i = some cell) (hunrev : cell.state.is_revealed = false) :
    (b.markRevealed i).unrevealedCount + 1 = b.unrevealedCount := by
  unfold Board.markRevealed Board.updateAt
  rw [heq]
  unfold Board.unrevealedCount
  dsimp only
  have h := countP_set_add (fun c => !c.state.is_revealed) b.cells i cell
    { cell with state := { cell.state with is_revealed := true } } heq
  simp only [hunrev] at h
  simpa using h

theorem finishReveal_unrev_le (fr : PyR) :
    ((finishReveal fr).1).unrevealedCount ≤ fr.1.unrevealedCount := by
  obtain ⟨bb, err⟩ := fr
  cases err with
  | none => exact unrev_check_win_le bb
  | some e => exact le_refl _

theorem finishReveal_pres (P : Board → Prop) (hcw : ∀ bb, P bb → P bb._check_win)
    (fr : PyR) (h : P fr.1) : P (finishReveal fr).1 := by
  obtain ⟨bb, err⟩ := fr
  cases err with
  | none => exact hcw bb h
  | some e => exact h

theorem finishReveal_no_rec (fr : PyR)
    (h : fr.2 ≠ some PyError.recursionError) :
    (finishReveal fr).2 ≠ some PyError.recursionError := by
  obtain ⟨bb, err⟩ := fr
  cases err with
  | none => simp [finishReveal]
  | some e => exact h

/-! ### `reveal`: the flood-fill fold -/

theorem floodStep_unrev_le (R : Board → Int → Int → PyR)
    (hR : ∀ bb c r, ((R bb c r).1).unrevealedCount ≤ bb.unrevealedCount)
    (acc : PyR) (p : Int × Int) :
    ((floodStep R acc p).1).unrevealedCount ≤ acc.1.unrevealedCount := by
  unfold floodStep
  split
  · exact le_refl _
  · exact hR acc.1 p.1 p.2

theorem floodFold_unrev_le (R : Board → Int → Int → PyR)
    (hR : ∀ bb c r, ((R bb c r).1).unrevealedCount ≤ bb.unrevealedCount) :
    ∀ (ps : List (Int × Int)) (acc : PyR),
      ((ps.foldl (floodStep R) acc).1).unrevealedCount ≤ acc.1.unrevealedCount := by
  intro ps
  induction ps with
  | nil => intro acc; exact le_refl _
  | cons p ps ih =>
    intro acc
    simp only [List.foldl]
    exact le_trans (ih (floodStep R acc p)) (floodStep_unrev_le R hR acc p)

theorem floodFold_pres (R : Board → Int → Int → PyR) (P : Board → Prop)
    (hR : ∀ bb c r, P bb → P (R bb c r).1) :
    ∀ (ps : List (Int × Int)) (acc : PyR),
      P acc.1 → P ((ps.foldl (floodStep R) acc).1) := by
  intro ps
  induction ps with
  | nil => intro acc h; exact h
  | cons p ps ih =>
    intro acc h
    simp only [List.foldl]
    apply ih
    unfold floodStep
    split
    · exact h
    · exact hR acc.1 p.1 p.2 h

theorem floodFold_congr (R₁ R₂ : Board → Int → Int → PyR) (n : Nat)
    (hmono : ∀ bb c r, ((R₁ bb c r).1).unrevealedCount ≤ bb.unrevealedCount)
    (hcg : ∀ bb c r, bb.unrevealedCount < n → R₁ bb c r = R₂ bb c r) :
    ∀ (ps : List (Int × Int)) (acc : PyR), acc.1.unrevealedCount < n →
      ps.foldl (floodStep R₁) acc = ps.foldl (floodStep R₂) acc := by
  intro ps
  induction ps with
  | nil => intro acc _; rfl
  | cons p ps ih =>
    intro acc hacc
    simp only [List.foldl]
    have hstep : floodStep R₁ acc p = floodStep R₂ acc p := by
      unfold floodStep
      cases h2 : acc.2 with
      | some e => rfl
      | none => exact hcg acc.1 p.1 p.2 hacc
    rw [← hstep]
    exact ih _ (lt_of_le_of_lt (floodStep_unrev_le R₁ hmono acc p) hacc)

theorem floodFold_no_rec (R : Board → Int → Int → PyR) (n : Nat)
    (hmono : ∀ bb c r, ((R bb c r).1).unrevealedCount ≤ bb.unrevealedCount)
    (hne : ∀ bb c r, bb.unrevealedCount < n →
      (R bb c r).2 ≠ some PyError.recursionError) :
    ∀ (ps : List (Int × Int)) (acc : PyR), acc.1.unrevealedCount < n →
      acc.2 ≠ some PyError.recursionError →
      (ps.foldl (floodStep R) acc).2 ≠ some PyError.recursionError := by
  intro ps
  induction ps with
  | nil => intro acc _ h; exact h
  | cons p ps ih =>
    intro acc hacc h
    simp only [List.foldl]
    apply ih
    · exact lt_of_le_of_lt (floodStep_unrev_le R hmono acc p) hacc
    · unfold floodStep
      split
      · exact h
      · exact hne acc.1 p.1 p.2 hacc

/-! ### `reveal`: body-level and fuel-level lemmas -/

theorem revealBody_unrev_le (R : Board → Int → Int → PyR)
    (hR : ∀ bb c r, ((R bb c r).1).unrevealedCount ≤ bb.unrevealedCount)
    (b : Board) (col row : Int) :
    ((revealBody R b col row).1).unrevealedCount ≤ b.unrevealedCount := by
  unfold revealBody
  split
  · split
    · exact le_refl _
    · split
      · exact le_refl _
      · split
        · exact le_refl _
        · split
          · exact le_trans (unrev_ram_le _) (unrev_markRevealed_le _ _)
          · apply le_trans (finishReveal_unrev_le _)
            split
            · exact le_trans (floodFold_unrev_le R hR _ _) (unrev_markRevealed_le _ _)
            · exact unrev_markRevealed_le _ _
  · exact le_refl _

theorem revealBody_pres (R : Board → Int → Int → PyR) (P : Board → Prop)
    (hR : ∀ bb c r, P bb → P (R bb c r).1)
    (hupd : ∀ bb i, P bb → P (bb.markRevealed i))
    (hmine : ∀ bb, P bb → P (Board._reveal_all_mines { bb with game_over := true }))
    (hcw : ∀ bb, P bb → P bb._check_win)
    (b : Board) (col row : Int) (hb : P b) :
    P ((revealBody R b col row).1) := by
  unfold revealBody
  split
  · split
    · exact hb
    · split
      · exact hb
      · split
        · exact hb
        · split
          · exact hmine _ (hupd _ _ hb)
          · apply finishReveal_pres P hcw
            split
            · exact floodFold_pres R P hR _ _ (hupd _ _ hb)
            · exact hupd _ _ hb
  · exact hb

theorem revealBody_congr (R₁ R₂ : Board → Int → Int → PyR) (n : Nat)
    (hmono : ∀ bb c r, ((R₁ bb c r).1).unrevealedCount ≤ bb.unrevealedCount)
    (hcg : ∀ bb c r, bb.unrevealedCount < n → R₁ bb c r = R₂ bb c r)
    (b : Board) (col row : Int) (hb : b.unrevealedCount ≤ n) :
    revealBody R₁ b col row = revealBody R₂ b col row := by
  unfold revealBody
  split
  · split
    · rfl
    · split
      · rfl
      · rename_i cell heq
        split
        · rfl
        · rename_i hflag
          split
          · rfl
          · congr 1
            split
            · apply floodFold_congr R₁ R₂ n hmono hcg
              have hrev : cell.state.is_revealed = false := by
                simp only [Bool.or_eq_true, not_or, Bool.not_eq_true] at hflag
                exact hflag.1
              have hdec := unrev_markRevealed_eq b (b.index col row) cell heq hrev
              show (b.markRevealed (b.index col row)).unrevealedCount < n
              omega
            · rfl
  · rfl

theorem revealBody_no_rec (R : Board → Int → Int → PyR) (n : Nat)
    (hmono : ∀ bb c r, ((R bb c r).1).unrevealedCount ≤ bb.unrevealedCount)
    (hne : ∀ bb c r, bb.unrevealedCount < n →
      (R bb c r).2 ≠ some PyError.recursionError)
    (b : Board) (col row : Int) (hb : b.unrevealedCount ≤ n) :
    (revealBody R b col row).2 ≠ some PyError.recursionError := by
  unfold revealBody
  split
  · split
    · simp
    · split
      · simp
      · rename_i cell heq
        split
        · simp
        · rename_i hflag
          split
          · simp
          · apply finishReveal_no_rec
            split
            · apply floodFold_no_rec R n hmono hne
              · have hrev : cell.state.is_revealed = false := by
                  simp only [Bool.or_eq_true, not_or, Bool.not_eq_true] at hflag
                  exact hflag.1
                have hdec := unrev_markRevealed_eq b (b.index col row) cell heq hrev
                show (b.markRevealed (b.index col row)).unrevealedCount < n
                omega
              · simp
            · simp
  · simp

theorem revealFuel_unrev_le :
    ∀ (fuel : Nat) (b : Board) (col row : Int),
      ((Board.revealFuel fuel b col row).1).unrevealedCount ≤ b.unrevealedCount := by
  intro fuel
  induction fuel with
  | zero => intro b col row; exact le_refl _
  | succ k ih =>
    intro b col row
    show ((revealBody (fun bb cc rr => Board.revealFuel k bb cc rr)
      b col row).1).unrevealedCount ≤ b.unrevealedCount
    exact revealBody_unrev_le _ (fun bb cc rr => ih bb cc rr) b col row

theorem revealFuel_pres (P : Board → Prop)
    (hupd : ∀ bb i, P bb → P (bb.markRevealed i))
    (hmine : ∀ bb, P bb → P (Board._reveal_all_mines { bb with game_over := true }))
    (hcw : ∀ bb, P bb → P bb._check_win) :
    ∀ (fuel : Nat) (b : Board) (col row : Int),
      P b → P ((Board.revealFuel fuel b col row).1) := by
  intro fuel
  induction fuel with
  | zero => intro b col row hb; exact hb
  | succ k ih =>
    intro b col row hb
    show P ((revealBody (fun bb cc rr => Board.revealFuel k bb cc rr) b col row).1)
    exact revealBody_pres _ P (fun bb cc rr => ih bb cc rr) hupd hmine hcw b col row hb

theorem revealFuel_congr :
    ∀ (n : Nat) (b : Board) (col row : Int) (f₁ f₂ : Nat),
      b.unrevealedCount ≤ n → n < f₁ → n < f₂ →
      Board.revealFuel f₁ b col row = Board.revealFuel f₂ b col row := by
  intro n
  induction n with
  | zero =>
    intro b col row f₁ f₂ hb h1 h2
    obtain ⟨a1, rfl⟩ : ∃ a, f₁ = a + 1 := ⟨f₁ - 1, by omega⟩
    obtain ⟨a2, rfl⟩ : ∃ a, f₂ = a + 1 := ⟨f₂ - 1, by omega⟩
    show revealBody (fun bb cc rr => Board.revealFuel a1 bb cc rr) b col row
      = revealBody (fun bb cc rr => Board.revealFuel a2 bb cc rr) b col row
    refine revealBody_congr _ _ 0
      (fun bb cc rr => revealFuel_unrev_le a1 bb cc rr) ?_ b col row hb
    intro bb cc rr hlt
    exact absurd hlt (by omega)
  | succ k ih =>
    intro b col row f₁ f₂ hb h1 h2
    obtain ⟨a1, rfl⟩ : ∃ a, f₁ = a + 1 := ⟨f₁ - 1, by omega⟩
    obtain ⟨a2, rfl⟩ : ∃ a, f₂ = a + 1 := ⟨f₂ - 1, by omega⟩
    show revealBody (fun bb cc rr => Board.revealFuel a1 bb cc rr) b col row
      = revealBody (fun bb cc rr => Board.revealFuel a2 bb cc rr) b col row
    refine revealBody_congr _ _ (k + 1)
      (fun bb cc rr => revealFuel_unrev_le a1 bb cc rr) ?_ b col row hb
    intro bb cc rr hlt
    exact ih bb cc rr a1 a2 (by omega) (by omega) (by omega)

theorem revealFuel_no_rec :
    ∀ (n : Nat) (b : Board) (col row : Int) (f : Nat),
      b.unrevealedCount ≤ n → n < f →
      (Board.revealFuel f b col row).2 ≠ some PyError.recursionError := by
  intro n
  induction n with
  | zero =>
    intro b col row f hb hf
    obtain ⟨a, rfl⟩ : ∃ x, f = x + 1 := ⟨f - 1, by omega⟩
    show (revealBody (fun bb cc rr => Board.revealFuel a bb cc rr) b col row).2 ≠ _
    refine revealBody_no_rec _ 0
      (fun bb cc rr => revealFuel_unrev_le a bb cc rr) ?_ b col row hb
    intro bb cc rr hlt
    exact absurd hlt (by omega)
  | succ k ih =>
    intro b col row f hb hf
    obtain ⟨a, rfl⟩ : ∃ x, f = x + 1 := ⟨f - 1, by omega⟩
    show (revealBody (fun bb cc rr => Board.revealFuel a bb cc rr) b col row).2 ≠ _
    refine revealBody_no_rec _ (k + 1)
      (fun bb cc rr => revealFuel_unrev_le a bb cc rr) ?_ b col row hb
    intro bb cc rr hlt
    exact ih bb cc rr a (by omega) (by omega)

/-! ### `toggle_flag` and `reveal`: flag monotonicity -/

theorem toggle_flag_game_over (b : Board) (col row : Int) :
    ((b.toggle_flag col row).1).game_over = b.game_over := by
  unfold Board.toggle_flag
  split
  · split
    · rfl
    · split
      · rfl
      · exact updateAt_game_over _ _ _
  · rfl

theorem toggle_flag_win (b : Board) (col row : Int) :
    ((b.toggle_flag col row).1).win = b.win := by
  unfold Board.toggle_flag
  split
  · split
    · rfl
    · split
      · rfl
      · exact updateAt_win _ _ _
  · rfl

theorem reveal_game_over_mono (b : Board) (col row : Int) (h : b.game_over = true) :
    ((b.reveal col row).1).game_over = true := by
  unfold Board.reveal
  exact revealFuel_pres (fun bb => bb.game_over = true)
    (fun bb i hb => by
      show (bb.markRevealed i).game_over = true
      rw [markRevealed_game_over]; exact hb)
    (fun bb hb => rfl)
    (fun bb hb => by
      show bb._check_win.game_over = true
      rw [_check_win_game_over]; exact hb)
    _ b col row h

theorem reveal_win_mono (b : Board) (col row : Int) (h : b.win = true) :
    ((b.reveal col row).1).win = true := by
  unfold Board.reveal
  exact revealFuel_pres (fun bb => bb.win = true)
    (fun bb i hb => by
      show (bb.markRevealed i).win = true
      rw [markRevealed_win]; exact hb)
    (fun bb hb => hb)
    (fun bb hb => _check_win_win_mono bb hb)
    _ b col row h

/-- Witness for C5 at a concrete input: 3×3 board, mine at `(2, 2)`, checking
the cell `(1, 1)` (which has exactly one mine neighbor). -/
theorem C5_adjacent_counts_witness :
    ((Board.init 3 3 1).WF ∧
      ((Board.init 3 3 1).place_mines 0 0 [(2, 2)]).is_inbounds 1 1 = true ∧
      ((Board.init 3 3 1).place_mines 0 0 [(2, 2)]).mineAt (1, 1) = false) ∧
    ((((Board.init 3 3 1).place_mines 0 0 [(2, 2)]).cellAt 1 1).map
        (fun cell => cell.state.adjacent) =
      some ((((Board.init 3 3 1).place_mines 0 0 [(2, 2)]).adjCount 1 1 : Nat) : Int) ∧
    ((Board.init 3 3 1).place_mines 0 0 [(2, 2)]).adjCount 1 1 ≤ 8) :=
  ⟨⟨by unfold Board.WF; decide, by decide, by decide⟩,
    C5_adjacent_counts (Board.init 3 3 1) 0 0 [(2, 2)]
      (by unfold Board.WF; decide) 1 1 (by decide) (by decide)⟩

/-! ### The remaining claims -/

/-- C1: the spec claims no engine operation ever raises and out-of-bounds
calls are silent no-ops.  In fact the very first in-bounds `reveal` on any
freshly constructed board raises `AttributeError`: `__init__` creates
`_mines_placed`, but `reveal` reads the never-created attribute
`mines_placed`.  Evaluation of the embedding at `Board(10, 10, 10)`,
`reveal(5, 5)`: the call raises and leaves the board unchanged. -/
theorem C1_first_reveal_raises :
    (Board.init 10 10 10).reveal 5 5
      = (Board.init 10 10 10, some PyError.attributeError) := by decide

/-- C2: the spec requires `revealed_count` to equal the number of revealed
cells at all times, but `reveal` never increments it.  After placing a mine
at `(2, 2)` on a 3×3 board and revealing `(2, 1)` (a completed, non-raising
call), one cell is revealed while `revealed_count` is still 0. -/
theorem C2_revealed_count_stuck :
    ((((Board.init 3 3 1).place_mines 0 0 [(2, 2)]).reveal 2 1).2 = none) ∧
    ((((Board.init 3 3 1).place_mines 0 0 [(2, 2)]).reveal 2 1).1.revealed_count = 0) ∧
    ((((Board.init 3 3 1).place_mines 0 0 [(2, 2)]).reveal 2 1).1.countRevealed = 1) :=
  ⟨by decide, by decide, by decide⟩

/-- C3: revealing `(0, 0)` on a 3×3 board whose only mine is at `(2, 2)`
flood-fills every one of the 8 non-mine cells in a single completed call —
the reveal that makes the last non-mine cell revealed — yet `win` stays
`false`, because `_check_win` compares the never-incremented
`revealed_count` (0) with `cols*rows - num_mines` (8). -/
theorem C3_win_not_set :
    ((((Board.init 3 3 1).place_mines 0 0 [(2, 2)]).reveal 0 0).2 = none) ∧
    (∀ cell ∈ (((Board.init 3 3 1).place_mines 0 0 [(2, 2)]).reveal 0 0).1.cells,
      cell.state.is_mine = false → cell.state.is_revealed = true) ∧
    ((((Board.init 3 3 1).place_mines 0 0 [(2, 2)]).reveal 0 0).1.game_over = false) ∧
    ((((Board.init 3 3 1).place_mines 0 0 [(2, 2)]).reveal 0 0).1.win = false) :=
  ⟨by decide, by decide, by decide, by decide⟩

/-- C6: the spec says `flagged_count()` returns the number of flagged cells;
the method body is `pass`, so every call returns Python `None`.  On a board
with exactly one flagged cell the call still returns `None`, not 1. -/
theorem C6_flagged_count_returns_none :
    Board.flagged_count (((Board.init 2 2 1).toggle_flag 0 0).1) = none ∧
    (((Board.init 2 2 1).toggle_flag 0 0).1).countFlagged = 1 ∧
    ((Board.init 2 2 1).toggle_flag 0 0).2 = none :=
  ⟨rfl, by decide, by decide⟩

/-- C7, counterexample: `game_over` and `win` are claimed mutually
exclusive, but on `Board(2, 3, 6)` — mines at `(0, 2)` and `(1, 2)` placed by
`place_mines(0, 0)` — revealing `(0, 0)` sets `win` (the win test
`0 == cols*rows - num_mines` holds since `num_mines` equals the cell count),
and then revealing the mine `(0, 2)` sets `game_over` while `win` is still
set: both flags end up `true` after two completed reveals. -/
theorem C7_both_flags_counterexample :
    (((((Board.init 2 3 6).place_mines 0 0 [(0, 2), (1, 2)]).reveal 0 0).2) = none) ∧
    ((((((Board.init 2 3 6).place_mines 0 0 [(0, 2), (1, 2)]).reveal 0 0).1).reveal 0 2).2 = none) ∧
    ((((((Board.init 2 3 6).place_mines 0 0 [(0, 2), (1, 2)]).reveal 0 0).1).reveal 0 2).1.game_over = true) ∧
    ((((((Board.init 2 3 6).place_mines 0 0 [(0, 2), (1, 2)]).reveal 0 0).1).reveal 0 2).1.win = true) :=
  ⟨by decide, by decide, by decide, by decide⟩

/-- C7, amended: `game_over` and `win` each transition from `false` to
`true` at most once (neither `reveal` nor `toggle_flag` ever resets a set
flag), but they are not mutually exclusive — revealing a mine after `win`
is set makes both `true`. -/
theorem C7_flags_set_at_most_once (b : Board) (col row : Int) :
    (b.game_over = true →
      ((b.reveal col row).1.game_over = true ∧
        (b.toggle_flag col row).1.game_over = true)) ∧
    (b.win = true →
      ((b.reveal col row).1.win = true ∧ (b.toggle_flag col row).1.win = true)) :=
  ⟨fun h => ⟨reveal_game_over_mono b col row h,
      by rw [toggle_flag_game_over]; exact h⟩,
    fun h => ⟨reveal_win_mono b col row h, by rw [toggle_flag_win]; exact h⟩⟩

/-- Witness for the amended C7, at the concrete both-flags-set board of the
counterexample scenario. -/
theorem C7_flags_set_at_most_once_witness :
    ((((((Board.init 2 3 6).place_mines 0 0 [(0, 2), (1, 2)]).reveal 0 0).1).reveal 0 2).1.game_over = true) ∧
    ((((((Board.init 2 3 6).place_mines 0 0 [(0, 2), (1, 2)]).reveal 0 0).1).reveal 0 2).1.win = true) ∧
    ((((((((Board.init 2 3 6).place_mines 0 0 [(0, 2), (1, 2)]).reveal 0 0).1).reveal 0 2).1).reveal 1 0).1.game_over = true ∧
      ((((((((Board.init 2 3 6).place_mines 0 0 [(0, 2), (1, 2)]).reveal 0 0).1).reveal 0 2).1).toggle_flag 1 0).1.game_over = true)) ∧
    ((((((((Board.init 2 3 6).place_mines 0 0 [(0, 2), (1, 2)]).reveal 0 0).1).reveal 0 2).1).reveal 1 0).1.win = true ∧
      ((((((((Board.init 2 3 6).place_mines 0 0 [(0, 2), (1, 2)]).reveal 0 0).1).reveal 0 2).1).toggle_flag 1 0).1.win = true)) :=
  ⟨by decide, by decide,
    (C7_flags_set_at_most_once
      ((((((Board.init 2 3 6).place_mines 0 0 [(0, 2), (1, 2)]).reveal 0 0).1).reveal 0 2).1)
      1 0).1 (by decide),
    (C7_flags_set_at_most_once
      ((((((Board.init 2 3 6).place_mines 0 0 [(0, 2), (1, 2)]).reveal 0 0).1).reveal 0 2).1)
      1 0).2 (by decide)⟩

/-- C8: the spec claims `mines_placed` becomes `true` during the first
in-bounds `reveal`, which invokes `place_mines`.  In the code the attribute
does not exist at construction (only `_mines_placed` does), and the first
in-bounds `reveal` raises `AttributeError` on reading it, before
`place_mines` can ever be invoked — so `reveal` never places mines and never
creates the attribute. -/
theorem C8_mines_placed_never_set_by_reveal :
    (Board.init 2 2 1).mines_placed = none ∧
    (Board.init 2 2 1).reveal 0 0
      = (Board.init 2 2 1, some PyError.attributeError) ∧
    ((Board.init 2 2 1).reveal 0 0).1.mines_placed = none :=
  ⟨rfl, by decide, by decide⟩

/-- C9: revealing an in-bounds flagged, unrevealed cell leaves the entire
board state — every cell and every field — exactly as it was; and when the
`mines_placed` attribute exists the call also returns without raising. -/
theorem C9_reveal_flagged_noop (b : Board) (col row : Int) (cell : Cell)
    (hin : b.is_inbounds col row = true)
    (hget : b.cellAt col row = some cell)
    (hflag : cell.state.is_flagged = true)
    (hrev : cell.state.is_revealed = false) :
    (b.reveal col row).1 = b ∧
      (b.mines_placed = some () → b.reveal col row = (b, none)) := by
  have hget' : b.cells.get? (b.index col row) = some cell := hget
  have key : b.reveal col row
      = (match b.mines_placed with
        | none => (b, some PyError.attributeError)
        | some _ => (b, none)) := by
    unfold Board.reveal
    simp only [Board.revealFuel]
    unfold revealBody
    rw [if_pos hin]
    cases hmp : b.mines_placed with
    | none => rfl
    | some u =>
      dsimp only
      rw [hget']
      dsimp only
      rw [hrev, hflag]
      rfl
  cases hmp : b.mines_placed with
  | none =>
    rw [hmp] at key
    refine ⟨by rw [key], ?_⟩
    intro h
    exact Option.noConfusion h
  | some u =>
    rw [hmp] at key
    exact ⟨by rw [key], fun _ => key⟩

/-- Witness for C9: a fresh 2×2 board with `(0, 0)` flagged. -/
theorem C9_reveal_flagged_noop_witness :
    ((((Board.init 2 2 1).toggle_flag 0 0).1).is_inbounds 0 0 = true ∧
      (((Board.init 2 2 1).toggle_flag 0 0).1).cellAt 0 0
        = some ⟨0, 0, ⟨false, false, true, 0⟩⟩) ∧
    (((((Board.init 2 2 1).toggle_flag 0 0).1).reveal 0 0).1
        = ((Board.init 2 2 1).toggle_flag 0 0).1 ∧
      ((((Board.init 2 2 1).toggle_flag 0 0).1).mines_placed = some () →
        (((Board.init 2 2 1).toggle_flag 0 0).1).reveal 0 0
          = (((Board.init 2 2 1).toggle_flag 0 0).1, none))) :=
  ⟨⟨by decide, by decide⟩,
    C9_reveal_flagged_noop (((Board.init 2 2 1).toggle_flag 0 0).1) 0 0
      ⟨0, 0, ⟨false, false, true, 0⟩⟩ (by decide) (by decide) (by decide) (by decide)⟩

/-- C10: every `reveal` call terminates.  In the fuel-indexed embedding this
is the statement that any fuel exceeding the number of unrevealed cells
yields the canonical result (the recursion stabilizes: each recursive level
is entered only after a cell flips from unrevealed to revealed), and the
fuel-exhaustion marker never appears. -/
theorem C10_reveal_terminates (b : Board) (col row : Int) (fuel : Nat)
    (h : b.unrevealedCount < fuel) :
    Board.revealFuel fuel b col row = b.reveal col row ∧
    (Board.revealFuel fuel b col row).2 ≠ some PyError.recursionError :=
  ⟨revealFuel_congr b.unrevealedCount b col row fuel (b.unrevealedCount + 1)
      (le_refl _) h (by omega),
    revealFuel_no_rec b.unrevealedCount b col row fuel (le_refl _) h⟩

/-- Witness for C10 at a concrete input. -/
theorem C10_reveal_terminates_witness :
    (Board.init 2 2 0).unrevealedCount < 9 ∧
    (Board.revealFuel 9 (Board.init 2 2 0) 0 0 = (Board.init 2 2 0).reveal 0 0 ∧
      (Board.revealFuel 9 (Board.init 2 2 0) 0 0).2 ≠ some PyError.recursionError) :=
  ⟨by decide, C10_reveal_terminates (Board.init 2 2 0) 0 0 9 (by decide)⟩

end Minesweeper
